import Mathlib

/-!
Verification of the power_flow repository core against its specification.

The shallow embedding below translates the Python source:
  * `src/power_flow/models/*.py`   — data model (Bus, Line, Transformer, Shunt, …)
  * `src/power_flow/ybus.py`       — nodal admittance matrix assembly
  * `src/power_flow/solver/*.py`   — power balance, Jacobian, update, convergence
  * `src/power_flow/newtonraphson.py` — the Newton-Raphson orchestrator
  * `src/config.py`                — global constants (BIG_NUMBER)

Python floats are modelled as real numbers, complex values as `ℂ`,
pandas Series/DataFrames as a list of labels together with a lookup
function keyed by bus name, and exceptions (KeyError, AssertionError,
numpy LinAlgError) as `Except String`.
-/

namespace PowerFlow

/-- Model of `power_flow/models/generator.py`: a generator attached to a bus,
with active/reactive output and reactive limits. -/
structure Generator where
  id : ℤ
  barra : String
  p : ℝ
  q : ℝ
  qmin : ℝ
  qmax : ℝ

/-- Model of `power_flow/models/load.py`: a load attached to a bus. -/
structure Load where
  barra : String
  p : ℝ
  q : ℝ

/-- Model of `power_flow/models/shunt.py`: a shunt element with owning bus,
susceptance and on/off status. -/
structure Shunt where
  barra : String
  b : ℝ
  status : Bool

/-- Model of `power_flow/models/bus.py`: a bus with number, type string
(PQ, PV or SWING), voltage magnitude/angle and attached equipment. -/
structure Bus where
  numero : ℤ
  tipo : String
  nome : String
  v : ℝ
  theta : ℝ
  geradores : List Generator
  cargas : List Load
  shunts : List Shunt

/-- Model of `power_flow/models/line.py`: a transmission line between two
buses with series impedance r + jx, total charging susceptance b, a tap
(unused by the Ybus code for lines) and an on/off status. -/
structure Line where
  de : String
  para : String
  r : ℝ
  x : ℝ
  b : ℝ
  tap : ℝ
  nome : String
  status : Bool

/-- Model of `power_flow/models/transformer.py`: a transformer between two
buses with series impedance, susceptance, tap ratio, phase angle `fase`
and an on/off status. -/
structure Transformer where
  de : String
  para : String
  nome : String
  r : ℝ
  x : ℝ
  b : ℝ
  tap : ℝ
  fase : ℝ
  status : Bool

/-- `BIG_NUMBER` from `src/config.py` (set to 1.0 there, with a comment
offering 1e10 for the classical Big Number variant). -/
def BIG_NUMBER : ℝ := 1.0

/-- numpy `deg2rad`: degrees to radians. -/
noncomputable def deg2rad (x : ℝ) : ℝ := x * Real.pi / 180

/-- The sorted list of distinct bus names, `sorted(set(b.nome for b in barras))`
in `Ybus.__new__` (ybus.py line 92).  Python's `sorted` over a set of distinct
strings produces the unique duplicate-free ≤-sorted list, which any comparison
sort computes; we use insertion sort. -/
def barraNomes (barras : List Bus) : List String :=
  ((barras.map Bus.nome).dedup).insertionSort (fun a b => a ≤ b)

/-- The name-to-position dictionary `barra_map` (ybus.py line 93); `none`
models a KeyError on lookup of an unknown name. -/
def barraMap (nomes : List String) : String → Option ℕ :=
  fun n => if n ∈ nomes then some (nomes.indexOf n) else none

/-- Pointwise update of an integer-indexed complex matrix at one position. -/
def update2 (m : ℕ → ℕ → ℂ) (i j : ℕ) (v : ℂ) : ℕ → ℕ → ℂ :=
  fun a b => if a = i ∧ b = j then v else m a b

/-- `ybus[i, j] += y` for a single contribution (i, j, y). -/
def applyStamp (m : ℕ → ℕ → ℂ) (s : ℕ × ℕ × ℂ) : ℕ → ℕ → ℂ :=
  update2 m s.1 s.2.1 (m s.1 s.2.1 + s.2.2)

/-- `_admitancia_linha` (ybus.py lines 32-47): contributions of one line.
The two `barra_map[...]` lookups raise KeyError when an endpoint is not a
known bus, modelled by `Except.error`.  Note: the line's `status` is NOT
consulted anywhere in this function or in its caller. -/
noncomputable def admitanciaLinha (linha : Line) (bm : String → Option ℕ) :
    Except String (List (ℕ × ℕ × ℂ)) :=
  match bm linha.de, bm linha.para with
  | some i, some j =>
      let z : ℂ := ⟨linha.r, linha.x⟩
      let y : ℂ := 1 / z
      let b : ℂ := ⟨0, linha.b / 2⟩
      .ok [(i, i, y + b), (j, j, y + b), (i, j, -y), (j, i, -y)]
  | _, _ => .error "KeyError: barra da linha ausente em barra_map"

/-- `_admitancia_transformador` (ybus.py lines 50-71): contributions of one
transformer.  The complex tap is `a = tap * exp(1j * deg2rad(fase))`: the
code converts `fase` from degrees to radians.  `hasattr(trafo, 'b')` is
always true for the dataclass, so `b = complex(0, trafo.b / 2)`.  The
transformer's `status` is NOT consulted. -/
noncomputable def admitanciaTransformador (trafo : Transformer) (bm : String → Option ℕ) :
    Except String (List (ℕ × ℕ × ℂ)) :=
  match bm trafo.de, bm trafo.para with
  | some i, some j =>
      let z : ℂ := ⟨trafo.r, trafo.x⟩
      let y : ℂ := 1 / z
      let b : ℂ := ⟨0, trafo.b / 2⟩
      let a : ℂ := (trafo.tap : ℂ) * Complex.exp (Complex.I * (deg2rad trafo.fase : ℝ))
      let Yff : ℂ := y / (a * (starRingEnd ℂ) a) + b
      let Yft : ℂ := -y / (starRingEnd ℂ) a
      let Ytf : ℂ := -y / a
      let Ytt : ℂ := y + b
      .ok [(i, i, Yff), (i, j, Yft), (j, i, Ytf), (j, j, Ytt)]
  | _, _ => .error "KeyError: barra do transformador ausente em barra_map"

/-- The loop `for linha in linhas: for i, j, y in _admitancia_linha(...)`
(ybus.py lines 97-99), accumulating into the matrix.  Every line in the
list is stamped, with no test of `linha.status`. -/
noncomputable def stampLinhas (bm : String → Option ℕ) :
    (ℕ → ℕ → ℂ) → List Line → Except String (ℕ → ℕ → ℂ)
  | m, [] => .ok m
  | m, l :: rest =>
      match admitanciaLinha l bm with
      | .error e => .error e
      | .ok stamps => stampLinhas bm (stamps.foldl applyStamp m) rest

/-- The loop `for trafo in transformadores: ...` (ybus.py lines 101-103).
Every transformer is stamped, with no test of `trafo.status`. -/
noncomputable def stampTrafos (bm : String → Option ℕ) :
    (ℕ → ℕ → ℂ) → List Transformer → Except String (ℕ → ℕ → ℂ)
  | m, [] => .ok m
  | m, t :: rest =>
      match admitanciaTransformador t bm with
      | .error e => .error e
      | .ok stamps => stampTrafos bm (stamps.foldl applyStamp m) rest

/-- The shunt loop (ybus.py lines 105-108): only shunts with
`shunt.status and shunt.barra in barra_map` contribute `jb` on the
diagonal. -/
def stampShunts (bm : String → Option ℕ) (m : ℕ → ℕ → ℂ) (shunts : List Shunt) :
    ℕ → ℕ → ℂ :=
  shunts.foldl
    (fun acc s =>
      if s.status then
        match bm s.barra with
        | some i => applyStamp acc (i, i, (⟨0, s.b⟩ : ℂ))
        | none => acc
      else acc)
    m

/-- The result of `Ybus.__new__`: a pandas DataFrame modelled as its row
labels, column labels and the underlying dense matrix. -/
structure YbusDF where
  index : List String
  columns : List String
  mat : ℕ → ℕ → ℂ

/-- `Ybus.__new__` (ybus.py lines 91-110): builds the admittance matrix from
the zero matrix by stamping all lines, then all transformers, then the
in-service shunts, and labels both dimensions with the sorted distinct bus
names. -/
noncomputable def Ybus (linhas : List Line) (trafos : List Transformer)
    (barras : List Bus) (shunts : List Shunt) : Except String YbusDF :=
  match stampLinhas (barraMap (barraNomes barras)) (fun _ _ => 0) linhas with
  | .error e => .error e
  | .ok m1 =>
      match stampTrafos (barraMap (barraNomes barras)) m1 trafos with
      | .error e => .error e
      | .ok m2 => .ok ⟨barraNomes barras, barraNomes barras,
          stampShunts (barraMap (barraNomes barras)) m2 shunts⟩

/-- Python error message of `calc_delta_p` / `calc_delta_q` for a bus
missing from the specified-power table (power_balance.py lines 68, 99). -/
def keyErrPotEsp (barra : String) : String :=
  "KeyError: Barra " ++ barra ++ " nao encontrada em pot_esp"

/-- The residual-building loop shared by `calc_delta_p` (power_balance.py
lines 65-69) and `calc_delta_q` (lines 96-100): for each requested bus, look
up its specified power and subtract the computed injection; a missing bus
raises KeyError at the first offender. -/
def buildDelta (valor : String → ℝ) (esp : String → Option ℝ) :
    List String → Except String (List (String × ℝ))
  | [] => .ok []
  | b :: rest =>
      match esp b with
      | none => .error (keyErrPotEsp b)
      | some e =>
          match buildDelta valor esp rest with
          | .error msg => .error msg
          | .ok l => .ok ((b, e - valor b) :: l)

/-- One pass of `delta[barra] = 0.0` for a single swing bus: a pandas label
assignment rewrites every entry carrying that label (guarded by
`if barra in delta`, i.e. label membership). -/
def zeroOne (l : List (String × ℝ)) (b : String) : List (String × ℝ) :=
  if b ∈ l.map Prod.fst then
    l.map (fun p => if p.1 = b then (p.1, 0) else p)
  else l

/-- The loop `for barra in swing: if barra in delta: delta[barra] = 0.0`
(power_balance.py lines 74-76 and 102-104). -/
def zeroSwing (swing : List String) (l : List (String × ℝ)) : List (String × ℝ) :=
  swing.foldl zeroOne l

/-- `calc_delta_p` (power_balance.py lines 50-78): ΔP over all buses in
`index`, with swing entries forced to 0.0.  `P` is the computed active
injection looked up by bus name, `potEsp` the specified-power table
(`P_esp`, `Q_esp`) with `none` modelling a missing row. -/
def calcDeltaP (P : String → ℝ) (potEsp : String → Option (ℝ × ℝ))
    (index swing : List String) : Except String (List (String × ℝ)) :=
  (buildDelta P (fun b => (potEsp b).map Prod.fst) index).map (zeroSwing swing)

/-- `calc_delta_q` (power_balance.py lines 80-106): ΔQ over
`barras_q = swing + pq`, with swing entries forced to 0.0. -/
def calcDeltaQ (Q : String → ℝ) (potEsp : String → Option (ℝ × ℝ))
    (pq swing : List String) : Except String (List (String × ℝ)) :=
  (buildDelta Q (fun b => (potEsp b).map Prod.snd) (swing ++ pq)).map (zeroSwing swing)

/-- Inner sum of `calc_injected_power` for P (power_balance.py line 46):
`P[k] = Σ_m V[k]·V[m]·(G[k,m]·cos(θ[k]-θ[m]) + B[k,m]·sin(θ[k]-θ[m]))`,
with G and B looked up by bus name from the complex Ybus. -/
noncomputable def pSum (ybus : String → String → ℂ) (V theta : String → ℝ)
    (ordem : List String) (k : String) : ℝ :=
  (ordem.map (fun m =>
    V k * V m * ((ybus k m).re * Real.cos (theta k - theta m) +
                 (ybus k m).im * Real.sin (theta k - theta m)))).sum

/-- Inner sum of `calc_injected_power` for Q (power_balance.py line 47). -/
noncomputable def qSum (ybus : String → String → ℂ) (V theta : String → ℝ)
    (ordem : List String) (k : String) : ℝ :=
  (ordem.map (fun m =>
    V k * V m * ((ybus k m).re * Real.sin (theta k - theta m) -
                 (ybus k m).im * Real.cos (theta k - theta m)))).sum

/-- `calc_injected_power` (power_balance.py lines 18-48).  The Ybus
DataFrame is carried as its label list `yOrder` plus a name-keyed entry
function; V and theta as their label lists plus name-keyed values.
Control flow of the source: `G.loc[ordem, ordem]` (with `ordem = V.index`)
realigns G and B to V's ordering by name, raising KeyError when a bus of
`ordem` is absent from the matrix labels; the first two asserts then
compare the realigned labels with `ordem` and cannot fail; the third
assert fails when theta's labels differ from V's. -/
noncomputable def calcInjectedPower (yOrder : List String) (ybus : String → String → ℂ)
    (vOrder : List String) (V : String → ℝ)
    (thetaOrder : List String) (theta : String → ℝ) :
    Except String (List (String × ℝ) × List (String × ℝ)) :=
  if ∀ n ∈ vOrder, n ∈ yOrder then
    -- after `.loc[ordem, ordem]` the G/B labels are exactly `ordem`,
    -- so `assert list(G.index) == list(V.index)` and the B variant hold
    if thetaOrder = vOrder then
      .ok (vOrder.map (fun k => (k, pSum ybus V theta vOrder k)),
           vOrder.map (fun k => (k, qSum ybus V theta vOrder k)))
    else .error "AssertionError: indices de theta e V nao coincidem"
  else .error "KeyError: reindexacao de G/B com barra ausente"

/-- Entry k m of the Jacobian submatrix H (`Jacobian._build_H`,
jacobian.py lines 103-124): row/column comparisons are by bus name. -/
noncomputable def hEntry (V theta : String → ℝ) (G B : String → String → ℝ)
    (Q : String → ℝ) (swing : List String) (k m : String) : ℝ :=
  if k ∈ swing ∨ m ∈ swing then
    (if k = m then BIG_NUMBER else 0)
  else if k = m then
    -(Q k) - (V k) ^ 2 * B k k
  else
    V k * V m * (G k m * Real.sin (theta k - theta m) -
                 B k m * Real.cos (theta k - theta m))

/-- Entry k m of the Jacobian submatrix N (`Jacobian._build_N`,
jacobian.py lines 126-147). -/
noncomputable def nEntry (V theta : String → ℝ) (G B : String → String → ℝ)
    (P : String → ℝ) (swing : List String) (k m : String) : ℝ :=
  if k ∈ swing ∨ m ∈ swing then 0
  else if k = m then
    (P k + (V k) ^ 2 * G k k) / V k
  else
    V k * (G k m * Real.cos (theta k - theta m) +
           B k m * Real.sin (theta k - theta m))

/-- Entry k m of the Jacobian submatrix M (`Jacobian._build_M`,
jacobian.py lines 149-170). -/
noncomputable def mEntry (V theta : String → ℝ) (G B : String → String → ℝ)
    (P : String → ℝ) (swing : List String) (k m : String) : ℝ :=
  if k ∈ swing ∨ m ∈ swing then 0
  else if k = m then
    P k - (V k) ^ 2 * G k k
  else
    -(V k) * V m * (G k m * Real.cos (theta k - theta m) +
                    B k m * Real.sin (theta k - theta m))

/-- Entry k m of the Jacobian submatrix L (`Jacobian._build_L`,
jacobian.py lines 172-192). -/
noncomputable def lEntry (V theta : String → ℝ) (G B : String → String → ℝ)
    (Q : String → ℝ) (swing : List String) (k m : String) : ℝ :=
  if k ∈ swing ∨ m ∈ swing then
    (if k = m then BIG_NUMBER else 0)
  else if k = m then
    (Q k - (V k) ^ 2 * B k k) / V k
  else
    V k * (G k m * Real.sin (theta k - theta m) -
           B k m * Real.cos (theta k - theta m))

/-- `Jacobian._build_H`: an |index| × |index| array filled entry by entry. -/
noncomputable def buildH (V theta : String → ℝ) (G B : String → String → ℝ)
    (Q : String → ℝ) (swing index : List String) : List (List ℝ) :=
  index.map (fun k => index.map (fun m => hEntry V theta G B Q swing k m))

/-- `Jacobian._build_N`: an |index| × |swing + pq| array. -/
noncomputable def buildN (V theta : String → ℝ) (G B : String → String → ℝ)
    (P : String → ℝ) (pq swing index : List String) : List (List ℝ) :=
  index.map (fun k => (swing ++ pq).map (fun m => nEntry V theta G B P swing k m))

/-- `Jacobian._build_M`: a |swing + pq| × |index| array. -/
noncomputable def buildM (V theta : String → ℝ) (G B : String → String → ℝ)
    (P : String → ℝ) (pq swing index : List String) : List (List ℝ) :=
  (swing ++ pq).map (fun k => index.map (fun m => mEntry V theta G B P swing k m))

/-- `Jacobian._build_L`: a |swing + pq| × |swing + pq| array. -/
noncomputable def buildL (V theta : String → ℝ) (G B : String → String → ℝ)
    (Q : String → ℝ) (pq swing : List String) : List (List ℝ) :=
  (swing ++ pq).map (fun k => (swing ++ pq).map (fun m => lEntry V theta G B Q swing k m))

/-- `Jacobian._build` (jacobian.py lines 86-101): the full Jacobian
`vstack((hstack((H, N)), hstack((M, L))))`, rows as lists. -/
noncomputable def buildJ (V theta : String → ℝ) (G B : String → String → ℝ)
    (P Q : String → ℝ) (pq swing index : List String) : List (List ℝ) :=
  List.zipWith (fun a b => a ++ b)
      (buildH V theta G B Q swing index) (buildN V theta G B P pq swing index) ++
  List.zipWith (fun a b => a ++ b)
      (buildM V theta G B P pq swing index) (buildL V theta G B Q pq swing)

/-- `split_corrections` (residuals.py lines 33-49):
`delta[:n_theta]` and `delta[n_theta : n_theta + n_v]`. -/
def splitCorrections (delta : List ℝ) (nTheta nV : ℕ) : List ℝ × List ℝ :=
  (delta.take nTheta, (delta.drop nTheta).take nV)

/-- One in-place pandas loop `series.loc[nome] -= d` over a list of
(name, correction) pairs, as in `apply_delta`. -/
def updSub (f : String → ℝ) : List (String × ℝ) → String → ℝ
  | [] => f
  | (n, d) :: rest => updSub (Function.update f n (f n - d)) rest

/-- `apply_delta` (update.py lines 22-53): Δθ is applied to every bus of
`index`, ΔV only to the buses of `swing + pq`.  Series are modelled as
name-keyed functions; the label lists drive the loops. -/
def applyDelta (theta V : String → ℝ) (delta : List ℝ)
    (index swing pq : List String) : (String → ℝ) × (String → ℝ) :=
  let dd := splitCorrections delta index.length (swing ++ pq).length
  (updSub theta (index.zip dd.1), updSub V ((swing ++ pq).zip dd.2))

/-- `np.max(np.abs(mismatch))` in `check_convergence` (convergence.py
line 33); on the empty vector numpy would raise, here 0 is returned. -/
def maxAbs (l : List ℝ) : ℝ :=
  l.foldl (fun acc x => max acc |x|) 0

/-- Value lookup in a name-indexed pandas Series built as an association
list (used to read `P[barra]`, `Q[barra]` back in the solver loop). -/
def lookupD (l : List (String × ℝ)) (n : String) : ℝ :=
  ((l.find? (fun p => p.1 = n)).map Prod.snd).getD 0

/-- Solver state: the two mutable Series (angles, magnitudes) of
`NewtonRaphson`, keyed by bus name. -/
structure NRState where
  theta : String → ℝ
  V : String → ℝ

/-- Immutable data driving one Newton-Raphson solve: the Ybus labels and
entries, the specified-power table, the bus partition, the tolerance and
the linear solver (numpy `linalg.solve`, abstracted as a function that
returns `none` exactly when it raises LinAlgError). -/
structure NRData where
  yOrder : List String
  ybus : String → String → ℂ
  potEsp : String → Option (ℝ × ℝ)
  index : List String
  swing : List String
  pv : List String
  pq : List String
  tol : ℝ
  linsolve : List (List ℝ) → List ℝ → Option (List ℝ)

/-- One iteration of `NewtonRaphson.solve` (newtonraphson.py lines
102-147): injected power, residuals, convergence check, Jacobian, linear
solve `J·Δx = −mismatch`, state update.  Returns `(true, st)` when the
convergence check stops the loop, `(false, st')` when a correction was
applied, and an error for KeyError / AssertionError / LinAlgError. -/
noncomputable def nrIterate (d : NRData) (st : NRState) :
    Except String (Bool × NRState) :=
  match calcInjectedPower d.yOrder d.ybus d.index st.V d.index st.theta with
  | .error e => .error e
  | .ok PQ =>
      match calcDeltaP (lookupD PQ.1) d.potEsp d.index d.swing with
      | .error e => .error e
      | .ok dp =>
          match calcDeltaQ (lookupD PQ.2) d.potEsp d.pq d.swing with
          | .error e => .error e
          | .ok dq =>
              let mismatch := dp.map Prod.snd ++ dq.map Prod.snd
              if maxAbs mismatch < d.tol then .ok (true, st)
              else
                let J := buildJ st.V st.theta
                  (fun k m => (d.ybus k m).re) (fun k m => (d.ybus k m).im)
                  (lookupD PQ.1) (lookupD PQ.2) d.pq d.swing d.index
                match d.linsolve J (mismatch.map Neg.neg) with
                | none => .error "LinAlgError: matriz Jacobiana singular"
                | some delta =>
                    let upd := applyDelta st.theta st.V delta d.index d.swing d.pq
                    .ok (false, ⟨upd.1, upd.2⟩)

/-- The `for iteration in range(self.max_iter)` loop of
`NewtonRaphson.solve`, by remaining-iteration count; falling off the end
of the loop returns the current state with `converged = False` and
iteration count `max_iter` (newtonraphson.py line 151). -/
noncomputable def solveLoop (d : NRData) (maxIter : ℕ) :
    ℕ → ℕ → NRState → Except String (NRState × Bool × ℕ)
  | 0, _, st => .ok (st, false, maxIter)
  | rem + 1, iter, st =>
      match nrIterate d st with
      | .error e => .error e
      | .ok (true, st') => .ok (st', true, iter + 1)
      | .ok (false, st') => solveLoop d maxIter rem (iter + 1) st'

/-- `NewtonRaphson.solve` (newtonraphson.py lines 102-151): run up to
`maxIter` iterations from the initial state. -/
noncomputable def solveNR (d : NRData) (maxIter : ℕ) (st : NRState) :
    Except String (NRState × Bool × ℕ) :=
  solveLoop d maxIter maxIter 0 st

/-- The state reached after k completed (non-converged, non-failing)
iterations; used to name "the last computed state" of a diverging run. -/
noncomputable def nrRun (d : NRData) : ℕ → NRState → NRState
  | 0, st => st
  | k + 1, st =>
      match nrIterate d st with
      | .ok (false, st') => nrRun d k st'
      | _ => st

/-- "No iteration converges and none raises a fatal error" for the next k
iterations starting at `st`. -/
def NoConvErr (d : NRData) : ℕ → NRState → Prop
  | 0, _ => True
  | k + 1, st => ∃ st', nrIterate d st = .ok (false, st') ∧ NoConvErr d k st'

/-- One full non-converged solver iteration as a relation on states:
power balance, mismatch, failed convergence check, Jacobian, a linear
solve result δ satisfying `J·δ = −mismatch`, state update. -/
def NRStep (d : NRData) (st st' : NRState) : Prop :=
  ∃ PQ dp dq delta,
    calcInjectedPower d.yOrder d.ybus d.index st.V d.index st.theta = .ok PQ ∧
    calcDeltaP (lookupD PQ.1) d.potEsp d.index d.swing = .ok dp ∧
    calcDeltaQ (lookupD PQ.2) d.potEsp d.pq d.swing = .ok dq ∧
    ¬ maxAbs (dp.map Prod.snd ++ dq.map Prod.snd) < d.tol ∧
    delta.length = d.index.length + (d.swing ++ d.pq).length ∧
    (buildJ st.V st.theta
        (fun k m => (d.ybus k m).re) (fun k m => (d.ybus k m).im)
        (lookupD PQ.1) (lookupD PQ.2) d.pq d.swing d.index).map
      (fun row => (List.zipWith (fun a b => a * b) row delta).sum) =
      (dp.map Prod.snd ++ dq.map Prod.snd).map Neg.neg ∧
    st' = ⟨(applyDelta st.theta st.V delta d.index d.swing d.pq).1,
           (applyDelta st.theta st.V delta d.index d.swing d.pq).2⟩

/-- Spec §4.3 reference entry for H: off-diagonal and diagonal formulas for
non-swing pairs; entries with a swing row or column bus are 0 except the
swing diagonal of H, which is `BIG_NUMBER`. -/
noncomputable def specH (V theta : String → ℝ) (G B : String → String → ℝ)
    (Q : String → ℝ) (swing : List String) (k m : String) : ℝ :=
  if k ∈ swing ∨ m ∈ swing then
    (if k = m then BIG_NUMBER else 0)
  else if k = m then
    -(Q k) - (V k) ^ 2 * B k k
  else
    V k * V m * (G k m * Real.sin (theta k - theta m) -
                 B k m * Real.cos (theta k - theta m))

/-- Spec §4.3 reference entry for N. -/
noncomputable def specN (V theta : String → ℝ) (G B : String → String → ℝ)
    (P : String → ℝ) (swing : List String) (k m : String) : ℝ :=
  if k ∈ swing ∨ m ∈ swing then 0
  else if k = m then
    (P k + (V k) ^ 2 * G k k) / V k
  else
    V k * (G k m * Real.cos (theta k - theta m) +
           B k m * Real.sin (theta k - theta m))

/-- Spec §4.3 reference entry for M. -/
noncomputable def specM (V theta : String → ℝ) (G B : String → String → ℝ)
    (P : String → ℝ) (swing : List String) (k m : String) : ℝ :=
  if k ∈ swing ∨ m ∈ swing then 0
  else if k = m then
    P k - (V k) ^ 2 * G k k
  else
    -(V k) * V m * (G k m * Real.cos (theta k - theta m) +
                    B k m * Real.sin (theta k - theta m))

/-- Spec §4.3 reference entry for L: swing diagonal is `BIG_NUMBER`. -/
noncomputable def specL (V theta : String → ℝ) (G B : String → String → ℝ)
    (Q : String → ℝ) (swing : List String) (k m : String) : ℝ :=
  if k ∈ swing ∨ m ∈ swing then
    (if k = m then BIG_NUMBER else 0)
  else if k = m then
    (Q k - (V k) ^ 2 * B k k) / V k
  else
    V k * (G k m * Real.sin (theta k - theta m) -
           B k m * Real.cos (theta k - theta m))

/-- Spec §4.3 reference Jacobian: block matrix [[H, N], [M, L]] with rows
of H and N indexed by `index`, rows of M and L by `swing ∪ PQ`, columns of
H and M by `index`, columns of N and L by `swing ∪ PQ`. -/
noncomputable def specJacobian (V theta : String → ℝ) (G B : String → String → ℝ)
    (P Q : String → ℝ) (pq swing index : List String) : List (List ℝ) :=
  index.map (fun k =>
    index.map (fun m => specH V theta G B Q swing k m) ++
    (swing ++ pq).map (fun m => specN V theta G B P swing k m)) ++
  (swing ++ pq).map (fun k =>
    index.map (fun m => specM V theta G B P swing k m) ++
    (swing ++ pq).map (fun m => specL V theta G B Q swing k m))

/-- Claim C4 as written: transformer stamp with complex tap
`a = tap·e^{jφ}` where φ is the `fase` attribute taken directly in
radians, series admittance `y = 1/(r + jx)` and charging `jb/2`. -/
noncomputable def transformerStampRad (t : Transformer) (i j : ℕ) :
    List (ℕ × ℕ × ℂ) :=
  let y : ℂ := 1 / (⟨t.r, t.x⟩ : ℂ)
  let a : ℂ := (t.tap : ℂ) * Complex.exp (Complex.I * (t.fase : ℝ))
  [(i, i, y / (a * (starRingEnd ℂ) a) + Complex.I * (t.b / 2 : ℝ)),
   (i, j, -y / (starRingEnd ℂ) a),
   (j, i, -y / a),
   (j, j, y + Complex.I * (t.b / 2 : ℝ))]

/-- Claim C4 amended: the same formulas but with the phase attribute
interpreted in degrees, φ = deg2rad(fase) = fase·π/180, matching
`a = trafo.tap * exp(1j * deg2rad(trafo.fase))` in the source. -/
noncomputable def transformerStampDeg (t : Transformer) (i j : ℕ) :
    List (ℕ × ℕ × ℂ) :=
  let y : ℂ := 1 / (⟨t.r, t.x⟩ : ℂ)
  let a : ℂ := (t.tap : ℂ) * Complex.exp (Complex.I * (deg2rad t.fase : ℝ))
  [(i, i, y / (a * (starRingEnd ℂ) a) + Complex.I * (t.b / 2 : ℝ)),
   (i, j, -y / (starRingEnd ℂ) a),
   (j, i, -y / a),
   (j, j, y + Complex.I * (t.b / 2 : ℝ))]

theorem updSub_of_forall_ne (f : String → ℝ) (l : List (String × ℝ)) (s : String)
    (h : ∀ p ∈ l, p.1 ≠ s) : updSub f l s = f s := by
  induction l generalizing f with
  | nil => rfl
  | cons p rest ih =>
      obtain ⟨n, d⟩ := p
      rw [updSub, ih _ (fun q hq => h q (List.mem_cons_of_mem _ hq))]
      exact Function.update_noteq (Ne.symm (h (n, d) (List.mem_cons_self _ _))) _ f

theorem updSub_of_zero (f : String → ℝ) (l : List (String × ℝ)) (s : String)
    (h : ∀ p ∈ l, p.1 = s → p.2 = 0) : updSub f l s = f s := by
  induction l generalizing f with
  | nil => rfl
  | cons p rest ih =>
      obtain ⟨n, d⟩ := p
      rw [updSub, ih _ (fun q hq => h q (List.mem_cons_of_mem _ hq))]
      by_cases hn : n = s
      · subst hn
        have hd : d = 0 := h (n, d) (List.mem_cons_self _ _) rfl
        rw [hd, sub_zero, Function.update_same]
      · exact Function.update_noteq (Ne.symm hn) _ f

/-- Claim C3: `apply_delta` leaves the voltage magnitude of every bus
outside `swing ++ pq` (in particular every PV bus) unchanged: the
magnitude-update loop runs only over `swing + pq`, so PV magnitudes keep
their setpoint and only their angle entry is corrected. -/
theorem applyDelta_preserves_pv_V (theta V : String → ℝ) (delta : List ℝ)
    (index swing pq : List String) (b : String) (hb : b ∉ swing ++ pq) :
    (applyDelta theta V delta index swing pq).2 b = V b := by
  apply updSub_of_forall_ne
  intro p hp hps
  obtain ⟨n, d⟩ := p
  exact hb (hps ▸ (List.of_mem_zip hp).1)

/-- Witness for C3 at a concrete input: bus P is PV (not in swing ++ pq),
and its magnitude survives a nonzero correction vector untouched. -/
theorem applyDelta_preserves_pv_V_witness :
    ("P" ∉ ["S"] ++ ["Q"]) ∧
    (applyDelta (fun _ => 0) (fun _ => 2) [1, 1, 1, 1, 1]
        ["S", "P", "Q"] ["S"] ["Q"]).2 "P" = 2 :=
  ⟨by decide,
   applyDelta_preserves_pv_V (fun _ => 0) (fun _ => 2) [1, 1, 1, 1, 1]
     ["S", "P", "Q"] ["S"] ["Q"] "P" (by decide)⟩

theorem zipWith_map_same {α β γ δ : Type} (f : β → γ → δ) (g : α → β) (h : α → γ)
    (l : List α) :
    List.zipWith f (l.map g) (l.map h) = l.map (fun x => f (g x) (h x)) := by
  induction l with
  | nil => rfl
  | cons a t ih => simp [ih]

/-- Claim C5: the Jacobian built by `Jacobian._build` equals the §4.3
reference definition: the block matrix [[H, N], [M, L]] with the stated
per-entry formulas, swing rows/columns zeroed except the H and L swing
diagonals which carry BIG_NUMBER, and with block sizes
|index|×|index|, |index|×|swing∪PQ|, |swing∪PQ|×|index| and
|swing∪PQ|×|swing∪PQ| (total square of side |index| + |swing∪PQ|). -/
theorem jacobian_matches_spec (V theta : String → ℝ) (G B : String → String → ℝ)
    (P Q : String → ℝ) (pq swing index : List String) :
    buildJ V theta G B P Q pq swing index =
      specJacobian V theta G B P Q pq swing index ∧
    (buildJ V theta G B P Q pq swing index).length =
      index.length + (swing ++ pq).length ∧
    ∀ row ∈ buildJ V theta G B P Q pq swing index,
      row.length = index.length + (swing ++ pq).length := by
  have hJ : buildJ V theta G B P Q pq swing index =
      specJacobian V theta G B P Q pq swing index := by
    unfold buildJ specJacobian buildH buildN buildM buildL
    rw [zipWith_map_same, zipWith_map_same]
    rfl
  refine ⟨hJ, ?_, ?_⟩
  · rw [hJ]
    simp [specJacobian]
  · rw [hJ]
    intro row hrow
    rcases List.mem_append.mp hrow with hr | hr <;>
      · obtain ⟨k, _, hk⟩ := List.mem_map.mp hr
        simp [← hk]

theorem buildDelta_ok_of_present (valor : String → ℝ) (esp : String → Option ℝ)
    (f : String → ℝ) (l : List String) (h : ∀ b ∈ l, esp b = some (f b)) :
    buildDelta valor esp l = .ok (l.map (fun b => (b, f b - valor b))) := by
  induction l with
  | nil => rfl
  | cons b rest ih =>
      rw [buildDelta, h b (List.mem_cons_self _ _),
        ih (fun c hc => h c (List.mem_cons_of_mem _ hc))]
      rfl

theorem buildDelta_error_imp (valor : String → ℝ) (esp : String → Option ℝ)
    (l : List String) (e : String) (h : buildDelta valor esp l = .error e) :
    ∃ b ∈ l, esp b = none ∧ e = keyErrPotEsp b := by
  induction l with
  | nil => exact absurd h (by simp [buildDelta])
  | cons b rest ih =>
      rw [buildDelta] at h
      cases hb : esp b with
      | none =>
          rw [hb] at h
          exact ⟨b, List.mem_cons_self _ _, hb, (Except.error.injEq _ _).mp h.symm⟩
      | some v =>
          rw [hb] at h
          cases hr : buildDelta valor esp rest with
          | error e2 =>
              rw [hr] at h
              obtain ⟨c, hc, hcn, hce⟩ := ih ((Except.error.injEq _ _).mp h ▸ hr)
              exact ⟨c, List.mem_cons_of_mem _ hc, hcn, hce⟩
          | ok l2 => rw [hr] at h; exact absurd h (by simp)

theorem buildDelta_error_of_missing (valor : String → ℝ) (esp : String → Option ℝ)
    (l : List String) (h : ∃ b ∈ l, esp b = none) :
    ∃ e, buildDelta valor esp l = .error e := by
  induction l with
  | nil => simp at h
  | cons b rest ih =>
      rw [buildDelta]
      cases hb : esp b with
      | none => exact ⟨keyErrPotEsp b, rfl⟩
      | some v =>
          obtain ⟨c, hc, hcn⟩ := h
          rcases List.mem_cons.mp hc with hcb | hcr
          · rw [hcb] at hcn; rw [hcn] at hb; exact absurd hb (by simp)
          · obtain ⟨e, he⟩ := ih ⟨c, hcr, hcn⟩
            exact ⟨e, by rw [he]⟩

theorem zeroSwing_map_eq (sw : List String) (l : List (String × ℝ)) :
    zeroSwing sw l = l.map (fun p => if p.1 ∈ sw then (p.1, 0) else p) := by
  induction sw generalizing l with
  | nil => simp [zeroSwing]
  | cons b sw ih =>
      have step : zeroSwing (b :: sw) l = zeroSwing sw (zeroOne l b) := rfl
      rw [step, ih]
      unfold zeroOne
      by_cases hb : b ∈ l.map Prod.fst
      · rw [if_pos hb, List.map_map]
        refine List.map_congr_left (fun p _ => ?_)
        by_cases h1 : p.1 = b
        · simp [Function.comp, h1]
        · by_cases h2 : p.1 ∈ sw <;> simp [Function.comp, h1, h2]
      · rw [if_neg hb]
        refine List.map_congr_left (fun p hp => ?_)
        have h1 : p.1 ≠ b := fun hc => hb (hc ▸ List.mem_map_of_mem Prod.fst hp)
        by_cases h2 : p.1 ∈ sw <;> simp [h1, h2]

theorem calcDeltaP_ok_of_present (P : String → ℝ) (potEsp : String → Option (ℝ × ℝ))
    (pe : String → ℝ × ℝ) (index swing : List String)
    (h : ∀ b ∈ index, potEsp b = some (pe b)) :
    calcDeltaP P potEsp index swing =
      .ok (index.map (fun b => (b, if b ∈ swing then 0 else (pe b).1 - P b))) := by
  unfold calcDeltaP
  rw [buildDelta_ok_of_present P _ (fun b => (pe b).1) index
    (fun b hb => by rw [h b hb]; rfl)]
  simp only [Except.map]
  rw [zeroSwing_map_eq, List.map_map]
  refine congrArg Except.ok (List.map_congr_left (fun b _ => ?_))
  by_cases hb : b ∈ swing <;> simp [Function.comp, hb]

theorem calcDeltaQ_ok_of_present (Q : String → ℝ) (potEsp : String → Option (ℝ × ℝ))
    (pe : String → ℝ × ℝ) (pq swing : List String)
    (h : ∀ b ∈ swing ++ pq, potEsp b = some (pe b)) :
    calcDeltaQ Q potEsp pq swing =
      .ok ((swing ++ pq).map
        (fun b => (b, if b ∈ swing then 0 else (pe b).2 - Q b))) := by
  unfold calcDeltaQ
  rw [buildDelta_ok_of_present Q _ (fun b => (pe b).2) (swing ++ pq)
    (fun b hb => by rw [h b hb]; rfl)]
  simp only [Except.map]
  rw [zeroSwing_map_eq, List.map_map]
  refine congrArg Except.ok (List.map_congr_left (fun b _ => ?_))
  by_cases hb : b ∈ swing <;> simp [Function.comp, hb]

/-- Claim C6: with every requested bus present in the specified-power
table, `calc_delta_p` returns ΔP[k] = P_esp[k] − P[k] for every bus of
`index`, forced to exactly 0 on swing buses, and `calc_delta_q` returns
ΔQ[k] = Q_esp[k] − Q[k] exactly for the buses of `swing ++ pq` (PV buses
get no entry), again forced to exactly 0 on swing buses. -/
theorem mismatch_vectors_spec (P Q : String → ℝ) (potEsp : String → Option (ℝ × ℝ))
    (pe : String → ℝ × ℝ) (index swing pq : List String)
    (hP : ∀ b ∈ index, potEsp b = some (pe b))
    (hQ : ∀ b ∈ swing ++ pq, potEsp b = some (pe b)) :
    calcDeltaP P potEsp index swing =
      .ok (index.map (fun b => (b, if b ∈ swing then 0 else (pe b).1 - P b))) ∧
    calcDeltaQ Q potEsp pq swing =
      .ok ((swing ++ pq).map
        (fun b => (b, if b ∈ swing then 0 else (pe b).2 - Q b))) :=
  ⟨calcDeltaP_ok_of_present P potEsp pe index swing hP,
   calcDeltaQ_ok_of_present Q potEsp pe pq swing hQ⟩

/-- Witness for C6: a two-bus system (swing S, load A) with a total
specified-power table; the swing ΔP and ΔQ entries are forced to 0 while
bus A keeps its genuine residuals. -/
theorem mismatch_vectors_spec_witness :
    calcDeltaP (fun _ => 1) (fun _ => some (5, 7)) ["S", "A"] ["S"] =
      .ok [("S", 0), ("A", 4)] ∧
    calcDeltaQ (fun _ => 2) (fun _ => some (5, 7)) ["A"] ["S"] =
      .ok [("S", 0), ("A", 5)] := by
  have h := mismatch_vectors_spec (fun _ => 1) (fun _ => 2)
    (fun _ => some (5, 7)) (fun _ => (5, 7)) ["S", "A"] ["S"] ["A"]
    (fun b _ => rfl) (fun b _ => rfl)
  have e1 : (["S", "A"].map
      (fun b => (b, if b ∈ ["S"] then (0 : ℝ) else (5 : ℝ) - 1))) =
      [("S", 0), ("A", 4)] := by
    norm_num [List.map_cons, List.mem_singleton]
    decide
  have e2 : ((["S"] ++ ["A"]).map
      (fun b => (b, if b ∈ ["S"] then (0 : ℝ) else (7 : ℝ) - 2))) =
      [("S", 0), ("A", 5)] := by
    norm_num [List.map_cons, List.mem_singleton]
    decide
  exact ⟨e1 ▸ h.1, e2 ▸ h.2⟩

theorem exceptMap_error_iff {α β : Type} (f : α → β) (x : Except String α)
    (e : String) : x.map f = .error e ↔ x = .error e := by
  cases x <;> simp [Except.map]

/-- Claim C7: the mismatch computations raise a KeyError naming the missing
bus exactly when some requested bus (all of `index` for ΔP, all of
`swing ++ pq` for ΔQ) is absent from the specified-power table, and return
a mismatch vector (no error) whenever all requested buses are present. -/
theorem mismatch_missing_bus_error (P Q : String → ℝ)
    (potEsp : String → Option (ℝ × ℝ)) (index swing pq : List String) :
    ((∃ e, calcDeltaP P potEsp index swing = .error e) ↔
      ∃ b ∈ index, potEsp b = none) ∧
    (∀ e, calcDeltaP P potEsp index swing = .error e →
      ∃ b ∈ index, potEsp b = none ∧ e = keyErrPotEsp b) ∧
    ((∃ e, calcDeltaQ Q potEsp pq swing = .error e) ↔
      ∃ b ∈ swing ++ pq, potEsp b = none) ∧
    (∀ e, calcDeltaQ Q potEsp pq swing = .error e →
      ∃ b ∈ swing ++ pq, potEsp b = none ∧ e = keyErrPotEsp b) := by
  have hP : ∀ e, calcDeltaP P potEsp index swing = .error e ↔
      buildDelta P (fun b => (potEsp b).map Prod.fst) index = .error e :=
    fun e => exceptMap_error_iff _ _ e
  have hQ : ∀ e, calcDeltaQ Q potEsp pq swing = .error e ↔
      buildDelta Q (fun b => (potEsp b).map Prod.snd) (swing ++ pq) = .error e :=
    fun e => exceptMap_error_iff _ _ e
  refine ⟨⟨?_, ?_⟩, ?_, ⟨?_, ?_⟩, ?_⟩
  · rintro ⟨e, he⟩
    obtain ⟨b, hb, hn, _⟩ := buildDelta_error_imp _ _ _ _ ((hP e).mp he)
    exact ⟨b, hb, Option.map_eq_none'.mp hn⟩
  · rintro ⟨b, hb, hn⟩
    obtain ⟨e, he⟩ := buildDelta_error_of_missing P
      (fun b => (potEsp b).map Prod.fst) index ⟨b, hb, by simp [hn]⟩
    exact ⟨e, (hP e).mpr he⟩
  · intro e he
    obtain ⟨b, hb, hn, hmsg⟩ := buildDelta_error_imp _ _ _ _ ((hP e).mp he)
    exact ⟨b, hb, Option.map_eq_none'.mp hn, hmsg⟩
  · rintro ⟨e, he⟩
    obtain ⟨b, hb, hn, _⟩ := buildDelta_error_imp _ _ _ _ ((hQ e).mp he)
    exact ⟨b, hb, Option.map_eq_none'.mp hn⟩
  · rintro ⟨b, hb, hn⟩
    obtain ⟨e, he⟩ := buildDelta_error_of_missing Q
      (fun b => (potEsp b).map Prod.snd) (swing ++ pq) ⟨b, hb, by simp [hn]⟩
    exact ⟨e, (hQ e).mpr he⟩
  · intro e he
    obtain ⟨b, hb, hn, hmsg⟩ := buildDelta_error_imp _ _ _ _ ((hQ e).mp he)
    exact ⟨b, hb, Option.map_eq_none'.mp hn, hmsg⟩

/-- Witness for C7: with bus B missing from the table, ΔP errors out; with
a total table, ΔP returns a vector. -/
theorem mismatch_missing_bus_error_witness :
    (∃ e, calcDeltaP (fun _ => 0)
      (fun b => if b = "B" then none else some (1, 1)) ["A", "B"] [] = .error e) ∧
    ¬ ∃ e, calcDeltaP (fun _ => 0)
      (fun _ => some (1, 1)) ["A", "B"] [] = .error e := by
  constructor
  · exact (mismatch_missing_bus_error (fun _ => 0) (fun _ => 0)
      (fun b => if b = "B" then none else some (1, 1)) ["A", "B"] [] []).1.mpr
      ⟨"B", by decide, by norm_num⟩
  · intro hex
    obtain ⟨b, _, hb⟩ := (mismatch_missing_bus_error (fun _ => 0) (fun _ => 0)
      (fun _ => some (1, 1)) ["A", "B"] [] []).1.mp hex
    exact Option.some_ne_none _ hb

theorem sum_zipWith_mul_zero (l : List String) (x : List ℝ) :
    (List.zipWith (fun a b => a * b) (l.map (fun _ => (0 : ℝ))) x).sum = 0 := by
  induction l generalizing x with
  | nil => simp
  | cons a t ih =>
      cases x with
      | nil => simp
      | cons x0 xs =>
          simp only [List.map_cons, List.zipWith_cons_cons, List.sum_cons,
            zero_mul, zero_add]
          exact ih xs

theorem sum_zipWith_mul_indicator (c : ℝ) (s : String) (l : List String)
    (x : List ℝ) (i : ℕ) (hil : i < l.length) (hix : i < x.length)
    (hnd : l.Nodup) (hs : l.get ⟨i, hil⟩ = s) :
    (List.zipWith (fun a b => a * b)
      (l.map (fun m => if s = m then c else 0)) x).sum = c * x.get ⟨i, hix⟩ := by
  induction l generalizing x i with
  | nil => exact absurd hil (by simp)
  | cons a t ih =>
      cases x with
      | nil => exact absurd hix (by simp)
      | cons x0 xs =>
          obtain ⟨ha, hnt⟩ := List.nodup_cons.mp hnd
          cases i with
          | zero =>
              have hsa : s = a := hs.symm
              have hzero : t.map (fun m => if s = m then c else 0) =
                  t.map (fun _ => (0 : ℝ)) :=
                List.map_congr_left (fun m hm => by
                  refine if_neg (fun hsm => ha ?_)
                  rw [hsa.symm.trans hsm]
                  exact hm)
              simp only [List.map_cons, List.zipWith_cons_cons, List.sum_cons,
                hzero, sum_zipWith_mul_zero, if_pos hsa, add_zero]
              rfl
          | succ j =>
              have hjt : j < t.length := Nat.lt_of_succ_lt_succ hil
              have hst : s ∈ t := hs ▸ List.get_mem t j hjt
              have hsa : ¬ s = a := fun hc => ha (hc ▸ hst)
              have hjx : j < xs.length := Nat.lt_of_succ_lt_succ hix
              simp only [List.map_cons, List.zipWith_cons_cons, List.sum_cons,
                if_neg hsa, zero_mul, zero_add]
              exact ih xs j hjt hjx hnt hs

theorem buildDelta_ok_imp (valor : String → ℝ) (esp : String → Option ℝ)
    (l : List String) (out : List (String × ℝ))
    (h : buildDelta valor esp l = .ok out) :
    out = l.map (fun b => (b, (esp b).getD 0 - valor b)) := by
  induction l generalizing out with
  | nil =>
      rw [buildDelta] at h
      simp only [Except.ok.injEq] at h
      rw [← h]
      rfl
  | cons b rest ih =>
      rw [buildDelta] at h
      cases hb : esp b with
      | none => rw [hb] at h; exact absurd h (by simp)
      | some v =>
          rw [hb] at h
          cases hr : buildDelta valor esp rest with
          | error e => rw [hr] at h; exact absurd h (by simp)
          | ok l2 =>
              rw [hr] at h
              simp only [Except.ok.injEq] at h
              rw [← h, ih l2 hr, List.map_cons, hb]
              rfl

theorem calcDeltaP_ok_shape (P : String → ℝ) (potEsp : String → Option (ℝ × ℝ))
    (index swing : List String) (l : List (String × ℝ))
    (h : calcDeltaP P potEsp index swing = .ok l) :
    ∃ f : String → ℝ,
      l = index.map (fun b => (b, if b ∈ swing then 0 else f b)) := by
  unfold calcDeltaP at h
  cases hb : buildDelta P (fun b => (potEsp b).map Prod.fst) index with
  | error e => rw [hb] at h; exact absurd h (by simp [Except.map])
  | ok l0 =>
      rw [hb] at h
      simp only [Except.map, Except.ok.injEq] at h
      refine ⟨fun b => ((potEsp b).map Prod.fst).getD 0 - P b, ?_⟩
      rw [← h, buildDelta_ok_imp _ _ _ _ hb, zeroSwing_map_eq, List.map_map]
      exact List.map_congr_left (fun b _ => by
        by_cases hbs : b ∈ swing <;> simp [Function.comp, hbs])

theorem calcDeltaQ_ok_shape (Q : String → ℝ) (potEsp : String → Option (ℝ × ℝ))
    (pq swing : List String) (l : List (String × ℝ))
    (h : calcDeltaQ Q potEsp pq swing = .ok l) :
    ∃ g : String → ℝ,
      l = (swing ++ pq).map (fun b => (b, if b ∈ swing then 0 else g b)) := by
  unfold calcDeltaQ at h
  cases hb : buildDelta Q (fun b => (potEsp b).map Prod.snd) (swing ++ pq) with
  | error e => rw [hb] at h; exact absurd h (by simp [Except.map])
  | ok l0 =>
      rw [hb] at h
      simp only [Except.map, Except.ok.injEq] at h
      refine ⟨fun b => ((potEsp b).map Prod.snd).getD 0 - Q b, ?_⟩
      rw [← h, buildDelta_ok_imp _ _ _ _ hb, zeroSwing_map_eq, List.map_map]
      exact List.map_congr_left (fun b _ => by
        by_cases hbs : b ∈ swing <;> simp [Function.comp, hbs])

theorem buildJ_eq_rows (V theta : String → ℝ) (G B : String → String → ℝ)
    (P Q : String → ℝ) (pq swing index : List String) :
    buildJ V theta G B P Q pq swing index =
      index.map (fun k =>
        index.map (fun m => hEntry V theta G B Q swing k m) ++
        (swing ++ pq).map (fun m => nEntry V theta G B P swing k m)) ++
      (swing ++ pq).map (fun k =>
        index.map (fun m => mEntry V theta G B P swing k m) ++
        (swing ++ pq).map (fun m => lEntry V theta G B Q swing k m)) := by
  unfold buildJ buildH buildN buildM buildL
  rw [zipWith_map_same, zipWith_map_same]

theorem dot_swing_row_top (V theta : String → ℝ) (G B : String → String → ℝ)
    (P Q : String → ℝ) (pq swing index : List String) (s : String)
    (hssw : s ∈ swing) (delta : List ℝ) (i : ℕ) (hil : i < index.length)
    (hnd : index.Nodup) (hs : index.get ⟨i, hil⟩ = s)
    (hlen : delta.length = index.length + (swing ++ pq).length) :
    (List.zipWith (fun a b => a * b)
      (index.map (fun m => hEntry V theta G B Q swing s m) ++
       (swing ++ pq).map (fun m => nEntry V theta G B P swing s m)) delta).sum =
    BIG_NUMBER * delta.get ⟨i, by omega⟩ := by
  have h1 : index.map (fun m => hEntry V theta G B Q swing s m) =
      index.map (fun m => if s = m then BIG_NUMBER else 0) :=
    List.map_congr_left (fun m _ => by simp [hEntry, hssw])
  have h2 : (swing ++ pq).map (fun m => nEntry V theta G B P swing s m) =
      (swing ++ pq).map (fun _ => (0 : ℝ)) :=
    List.map_congr_left (fun m _ => by simp [nEntry, hssw])
  rw [h1, h2]
  have hsplit : delta = delta.take index.length ++ delta.drop index.length :=
    (List.take_append_drop _ _).symm
  conv_lhs => rw [hsplit]
  rw [List.zipWith_append _ _ _ _ _
    (by simp [List.length_take]; omega), List.sum_append, sum_zipWith_mul_zero]
  have hixt : i < (delta.take index.length).length := by
    simp [List.length_take]; omega
  rw [sum_zipWith_mul_indicator BIG_NUMBER s index _ i hil hixt hnd hs, add_zero]
  congr 1
  simp [List.get_eq_getElem, List.getElem_take]

theorem dot_swing_row_bot (V theta : String → ℝ) (G B : String → String → ℝ)
    (P Q : String → ℝ) (pq swing index : List String) (s : String)
    (hssw : s ∈ swing) (delta : List ℝ) (r : ℕ)
    (hrl : r < (swing ++ pq).length) (hnd : (swing ++ pq).Nodup)
    (hs : (swing ++ pq).get ⟨r, hrl⟩ = s)
    (hlen : delta.length = index.length + (swing ++ pq).length) :
    (List.zipWith (fun a b => a * b)
      (index.map (fun m => mEntry V theta G B P swing s m) ++
       (swing ++ pq).map (fun m => lEntry V theta G B Q swing s m)) delta).sum =
    BIG_NUMBER * delta.get ⟨index.length + r, by omega⟩ := by
  have h1 : index.map (fun m => mEntry V theta G B P swing s m) =
      index.map (fun _ => (0 : ℝ)) :=
    List.map_congr_left (fun m _ => by simp [mEntry, hssw])
  have h2 : (swing ++ pq).map (fun m => lEntry V theta G B Q swing s m) =
      (swing ++ pq).map (fun m => if s = m then BIG_NUMBER else 0) :=
    List.map_congr_left (fun m _ => by simp [lEntry, hssw])
  rw [h1, h2]
  have hsplit : delta = delta.take index.length ++ delta.drop index.length :=
    (List.take_append_drop _ _).symm
  conv_lhs => rw [hsplit]
  rw [List.zipWith_append _ _ _ _ _
    (by simp [List.length_take]; omega), List.sum_append, sum_zipWith_mul_zero,
    zero_add]
  have hrx : r < (delta.drop index.length).length := by
    simp [List.length_drop]; omega
  rw [sum_zipWith_mul_indicator BIG_NUMBER s (swing ++ pq) _ r hrl hrx hnd hs]
  congr 1
  simp [List.get_eq_getElem, List.getElem_drop]

theorem getElem_eq_of_eq {α : Type} {l l2 : List α} (h : l = l2) (i : ℕ)
    (hi : i < l.length) (hi2 : i < l2.length) :
    l.get ⟨i, hi⟩ = l2.get ⟨i, hi2⟩ := by
  subst h
  rfl

theorem map_eq_map_component {α β : Type} {l : List α} {F G : α → β}
    (h : l.map F = l.map G) {a : α} (ha : a ∈ l) : F a = G a := by
  induction l with
  | nil => cases ha
  | cons x t ih =>
      simp only [List.map_cons, List.cons.injEq] at h
      rcases List.mem_cons.mp ha with h1 | h1
      · rw [h1]; exact h.1
      · exact ih h.2 h1

theorem NRStep_swing_fixed (d : NRData) (s : String)
    (hsw : d.swing = [s]) (hnd : d.index.Nodup)
    (hcnd : (d.swing ++ d.pq).Nodup) (hsi : s ∈ d.index)
    (st st2 : NRState) (h : NRStep d st st2) :
    st2.theta s = st.theta s ∧ st2.V s = st.V s := by
  obtain ⟨PQ, dp, dq, delta, hPQ, hdp, hdq, hconv, hlen, hmat, hst⟩ := h
  obtain ⟨f, hdpf⟩ := calcDeltaP_ok_shape _ _ _ _ _ hdp
  obtain ⟨g, hdqf⟩ := calcDeltaQ_ok_shape _ _ _ _ _ hdq
  have hssw : s ∈ d.swing := by rw [hsw]; exact List.mem_singleton_self s
  have hscols : s ∈ d.swing ++ d.pq := List.mem_append_left _ hssw
  obtain ⟨⟨i, hil⟩, his⟩ := List.mem_iff_get.mp hsi
  obtain ⟨⟨r, hrl⟩, hrs⟩ := List.mem_iff_get.mp hscols
  have hdpv : dp.map Prod.snd =
      d.index.map (fun b => if b ∈ d.swing then 0 else f b) := by
    rw [hdpf, List.map_map]
    rfl
  have hdqv : dq.map Prod.snd =
      (d.swing ++ d.pq).map (fun b => if b ∈ d.swing then 0 else g b) := by
    rw [hdqf, List.map_map]
    rfl
  have hdpl : (dp.map Prod.snd).length = d.index.length := by rw [hdpv]; simp
  rw [buildJ_eq_rows, List.map_append, List.map_map, List.map_map] at hmat
  rw [List.map_append Neg.neg (dp.map Prod.snd) (dq.map Prod.snd)] at hmat
  have hdpl0 : dp.length = d.index.length := by simpa using hdpl
  have hsplit := List.append_inj hmat
  obtain ⟨hTop, hBot⟩ := hsplit (by simp only [List.length_map]; exact hdpl0.symm)
  have hTop2 := hTop.trans (by rw [hdpv, List.map_map])
  have hBot2 := hBot.trans (by rw [hdqv, List.map_map])
  have hFs := map_eq_map_component hTop2 hsi
  have hGs := map_eq_map_component hBot2 hscols
  simp only [Function.comp, if_pos hssw, neg_zero] at hFs hGs
  rw [dot_swing_row_top st.V st.theta (fun k m => (d.ybus k m).re)
    (fun k m => (d.ybus k m).im) (lookupD PQ.1) (lookupD PQ.2)
    d.pq d.swing d.index s hssw delta i hil hnd his hlen] at hFs
  rw [dot_swing_row_bot st.V st.theta (fun k m => (d.ybus k m).re)
    (fun k m => (d.ybus k m).im) (lookupD PQ.1) (lookupD PQ.2)
    d.pq d.swing d.index s hssw delta r hrl hcnd hrs hlen] at hGs
  have hbig : (BIG_NUMBER : ℝ) ≠ 0 := by norm_num [BIG_NUMBER]
  have hdi : delta.get ⟨i, by omega⟩ = 0 := by
    rcases mul_eq_zero.mp hFs with hc | hc
    · exact absurd hc hbig
    · exact hc
  have hdr : delta.get ⟨d.index.length + r, by omega⟩ = 0 := by
    rcases mul_eq_zero.mp hGs with hc | hc
    · exact absurd hc hbig
    · exact hc
  constructor
  · rw [hst]
    show updSub st.theta (d.index.zip (delta.take d.index.length)) s = st.theta s
    apply updSub_of_zero
    rintro ⟨a, b⟩ hp hps
    obtain ⟨⟨k, hk⟩, hgk⟩ := List.mem_iff_get.mp hp
    have hk2 : k < d.index.length := by
      simp only [List.length_zip, List.length_take, lt_inf_iff] at hk
      omega
    have hk3 : k < delta.length := by omega
    simp only [List.get_eq_getElem, List.getElem_zip, Prod.mk.injEq] at hgk
    have hks : d.index.get ⟨k, hk2⟩ = d.index.get ⟨i, hil⟩ := by
      rw [his, List.get_eq_getElem, hgk.1]
      exact hps
    have hki : k = i := congrArg Fin.val (hnd.get_inj_iff.mp hks)
    subst hki
    rw [← hgk.2, List.getElem_take]
    simpa [List.get_eq_getElem] using hdi
  · rw [hst]
    show updSub st.V
      ((d.swing ++ d.pq).zip
        ((delta.drop d.index.length).take (d.swing ++ d.pq).length)) s = st.V s
    apply updSub_of_zero
    rintro ⟨a, b⟩ hp hps
    obtain ⟨⟨k, hk⟩, hgk⟩ := List.mem_iff_get.mp hp
    have hk2 : k < (d.swing ++ d.pq).length := by
      simp only [List.length_zip, List.length_take, lt_inf_iff] at hk
      omega
    have hk3 : d.index.length + k < delta.length := by
      simp only [List.length_drop] at hk2 ⊢
      omega
    simp only [List.get_eq_getElem, List.getElem_zip, Prod.mk.injEq] at hgk
    have hks : (d.swing ++ d.pq).get ⟨k, hk2⟩ = (d.swing ++ d.pq).get ⟨r, hrl⟩ := by
      rw [hrs, List.get_eq_getElem, hgk.1]
      exact hps
    have hkr : k = r := congrArg Fin.val (hcnd.get_inj_iff.mp hks)
    subst hkr
    rw [← hgk.2, List.getElem_take, List.getElem_drop]
    simpa [List.get_eq_getElem] using hdr

/-- Claim C2: across any number of completed solver iterations (each one
being power balance, mismatch, Jacobian, a linear solve satisfying
J·δ = −mismatch, and apply_delta) on a system with a single swing bus `s`,
the swing angle stays exactly at its initial value and the swing voltage
magnitude stays exactly at its setpoint: the swing row of the Jacobian is
BIG_NUMBER on the diagonal and 0 elsewhere while the swing mismatch
entries are forced to 0, so every linear-solve solution has exactly zero
swing corrections. -/
theorem swing_state_invariant (d : NRData) (s : String)
    (hsw : d.swing = [s]) (hnd : d.index.Nodup)
    (hcnd : (d.swing ++ d.pq).Nodup) (hsi : s ∈ d.index)
    (st0 st1 : NRState) (h : Relation.ReflTransGen (NRStep d) st0 st1) :
    st1.theta s = st0.theta s ∧ st1.V s = st0.V s := by
  induction h with
  | refl => exact ⟨rfl, rfl⟩
  | tail hab hbc ih =>
      obtain ⟨h1, h2⟩ := NRStep_swing_fixed d s hsw hnd hcnd hsi _ _ hbc
      exact ⟨h1.trans ih.1, h2.trans ih.2⟩

/-- Witness for C2 at a concrete two-bus system (swing S, PQ bus A, a
purely reactive self-admittance at A): one full solver iteration is taken
(here δ = [0, 0, 0, 1/2] solves J·δ = −mismatch exactly) and the swing
angle and magnitude survive it unchanged. -/
theorem swing_state_invariant_witness :
    NRStep
      ⟨["S", "A"],
        fun k m => (⟨0, if k = "A" ∧ m = "A" then 5 else 0⟩ : ℂ),
        fun _ => some (0, 0), ["S", "A"], ["S"], [], ["A"], 1,
        fun _ _ => some []⟩
      ⟨fun _ => 0, fun _ => 1⟩
      ⟨(applyDelta (fun _ => 0) (fun _ => 1) [0, 0, 0, 1 / 2]
          ["S", "A"] ["S"] ["A"]).1,
       (applyDelta (fun _ => 0) (fun _ => 1) [0, 0, 0, 1 / 2]
          ["S", "A"] ["S"] ["A"]).2⟩ ∧
    (⟨(applyDelta (fun _ => 0) (fun _ => 1) [0, 0, 0, 1 / 2]
          ["S", "A"] ["S"] ["A"]).1,
      (applyDelta (fun _ => 0) (fun _ => 1) [0, 0, 0, 1 / 2]
          ["S", "A"] ["S"] ["A"]).2⟩ : NRState).theta "S" =
      (⟨fun _ => 0, fun _ => 1⟩ : NRState).theta "S" ∧
    (⟨(applyDelta (fun _ => 0) (fun _ => 1) [0, 0, 0, 1 / 2]
          ["S", "A"] ["S"] ["A"]).1,
      (applyDelta (fun _ => 0) (fun _ => 1) [0, 0, 0, 1 / 2]
          ["S", "A"] ["S"] ["A"]).2⟩ : NRState).V "S" =
      (⟨fun _ => 0, fun _ => 1⟩ : NRState).V "S" := by
  have hstep : NRStep
      ⟨["S", "A"],
        fun k m => (⟨0, if k = "A" ∧ m = "A" then 5 else 0⟩ : ℂ),
        fun _ => some (0, 0), ["S", "A"], ["S"], [], ["A"], 1,
        fun _ _ => some []⟩
      ⟨fun _ => 0, fun _ => 1⟩
      ⟨(applyDelta (fun _ => 0) (fun _ => 1) [0, 0, 0, 1 / 2]
          ["S", "A"] ["S"] ["A"]).1,
       (applyDelta (fun _ => 0) (fun _ => 1) [0, 0, 0, 1 / 2]
          ["S", "A"] ["S"] ["A"]).2⟩ := by
    refine ⟨([("S", 0), ("A", 0)], [("S", 0), ("A", -5)]),
      [("S", 0), ("A", 0)], [("S", 0), ("A", 5)], [0, 0, 0, 1 / 2],
      ?_, ?_, ?_, ?_, ?_, ?_, rfl⟩
    · simp [calcInjectedPower, pSum, qSum]
    · simp [calcDeltaP, buildDelta, zeroSwing, zeroOne, lookupD, List.find?,
        Except.map]
    · simp [calcDeltaQ, buildDelta, zeroSwing, zeroOne, lookupD, List.find?,
        Except.map]
    · simp [maxAbs]
    · simp
    · simp [buildJ, buildH, buildN, buildM, buildL, hEntry, nEntry, mEntry,
        lEntry, BIG_NUMBER, lookupD, List.find?]
      norm_num
  obtain ⟨h1, h2⟩ := swing_state_invariant _ "S" rfl (by decide) (by decide)
    (by decide) _ _ (Relation.ReflTransGen.single hstep)
  exact ⟨hstep, h1, h2⟩

theorem solveLoop_exhaust (d : NRData) (maxIter : ℕ) :
    ∀ rem iter st, NoConvErr d rem st →
      solveLoop d maxIter rem iter st = .ok (nrRun d rem st, false, maxIter) := by
  intro rem
  induction rem with
  | zero => intro iter st _; rfl
  | succ k ih =>
      intro iter st h
      obtain ⟨st1, hstep, hrest⟩ := h
      have hrun : nrRun d (k + 1) st = nrRun d k st1 := by
        rw [nrRun, hstep]
      rw [solveLoop, hstep, hrun]
      exact ih (iter + 1) st1 hrest

/-- Claim C9: when no iteration converges and none raises a fatal error,
`solve` performs exactly `maxIter` iterations and returns the state
reached after them together with `converged = false` and iteration count
`maxIter`; in particular it never reports convergence on exhaustion. -/
theorem solve_exhaustion_diverges (d : NRData) (maxIter : ℕ) (st : NRState)
    (h : NoConvErr d maxIter st) :
    solveNR d maxIter st = .ok (nrRun d maxIter st, false, maxIter) :=
  solveLoop_exhaust d maxIter maxIter 0 st h

/-- Witness for C9: a one-bus system whose active-power mismatch (5) can
never fall below tolerance 1; with max_iter = 1 the solver runs its single
iteration and reports the final state with converged = false and the
iteration count equal to max_iter. -/
theorem solve_exhaustion_diverges_witness :
    NoConvErr ⟨["A"], fun _ _ => 0, fun _ => some (5, 0), ["A"], [], [], [], 1,
        fun _ _ => some [0]⟩ 1 ⟨fun _ => 0, fun _ => 1⟩ ∧
    solveNR ⟨["A"], fun _ _ => 0, fun _ => some (5, 0), ["A"], [], [], [], 1,
        fun _ _ => some [0]⟩ 1 ⟨fun _ => 0, fun _ => 1⟩ =
      .ok (nrRun ⟨["A"], fun _ _ => 0, fun _ => some (5, 0), ["A"], [], [], [],
        1, fun _ _ => some [0]⟩ 1 ⟨fun _ => 0, fun _ => 1⟩, false, 1) := by
  have h : NoConvErr ⟨["A"], fun _ _ => 0, fun _ => some (5, 0), ["A"], [], [],
      [], 1, fun _ _ => some [0]⟩ 1 ⟨fun _ => 0, fun _ => 1⟩ := by
    refine ⟨⟨fun _ => 0, fun _ => 1⟩, ?_, trivial⟩
    simp [nrIterate, calcInjectedPower, pSum, qSum, calcDeltaP, calcDeltaQ,
      buildDelta, zeroSwing, lookupD, maxAbs, applyDelta, splitCorrections,
      updSub, List.find?, Except.map]
  exact ⟨h, solve_exhaustion_diverges _ 1 _ h⟩

theorem admitanciaTransformador_eq_deg (t : Transformer) (bm : String → Option ℕ)
    (i j : ℕ) (hi : bm t.de = some i) (hj : bm t.para = some j) :
    admitanciaTransformador t bm = .ok (transformerStampDeg t i j) := by
  have hb : (⟨0, t.b / 2⟩ : ℂ) = Complex.I * ((t.b / 2 : ℝ) : ℂ) := by
    simp [Complex.ext_iff]
  simp only [admitanciaTransformador, transformerStampDeg, hi, hj, hb]

/-- Claim C4 amended: for every in-service transformer the Ybus
contributions are Y_ff = y/(a·ā) + jb/2, Y_ft = −y/ā, Y_tf = −y/a,
Y_tt = y + jb/2 with y = 1/(r + jx) and complex tap a = tap·e^{jφ}, where
the phase φ is deg2rad(fase) = fase·π/180 — the `fase` attribute is
interpreted in degrees and converted, not used directly as radians. -/
theorem transformer_stamp_formulas (t : Transformer) (bm : String → Option ℕ)
    (i j : ℕ) (_ht : t.status = true) (hi : bm t.de = some i)
    (hj : bm t.para = some j) :
    admitanciaTransformador t bm = .ok (transformerStampDeg t i j) :=
  admitanciaTransformador_eq_deg t bm i j hi hj

/-- Witness for C4 at a concrete in-service transformer. -/
theorem transformer_stamp_formulas_witness :
    (⟨"A", "B", "", 0, 1, 0, 1, 90, true⟩ : Transformer).status = true ∧
    admitanciaTransformador ⟨"A", "B", "", 0, 1, 0, 1, 90, true⟩
      (barraMap ["A", "B"]) =
    .ok (transformerStampDeg ⟨"A", "B", "", 0, 1, 0, 1, 90, true⟩ 0 1) :=
  ⟨rfl, transformer_stamp_formulas _ _ 0 1 rfl (by decide) (by decide)⟩

/-- Counterexample to C4 as stated: for the transformer
(r = 0, x = 1, b = 0, tap = 1, fase = π, in service) between buses A and
B, the code's stamp differs from the radian interpretation of the claim
(a = tap·e^{j·fase}): the code computes a = e^{j·π²/180} via deg2rad,
giving Y_ft with imaginary part cos(π²/180) > 0, while the claim requires
Y_ft = −j (imaginary part −1). -/
theorem transformer_stamp_radians_refuted :
    admitanciaTransformador ⟨"A", "B", "", 0, 1, 0, 1, Real.pi, true⟩
      (barraMap ["A", "B"]) ≠
    .ok (transformerStampRad ⟨"A", "B", "", 0, 1, 0, 1, Real.pi, true⟩ 0 1) := by
  intro heq
  rw [admitanciaTransformador_eq_deg _ _ 0 1 (by decide) (by decide)] at heq
  have hlist := Except.ok.inj heq
  have hYft := congrArg (fun l => ((l.getD 1 (0, 0, 0)).2.2).im) hlist
  simp only [transformerStampDeg, transformerStampRad, List.getD_cons_succ,
    List.getD_cons_zero] at hYft
  have hIc : ((⟨(0 : ℝ), (1 : ℝ)⟩ : ℂ)) = Complex.I := rfl
  rw [hIc] at hYft
  have hcode : ((-(1 / Complex.I)) /
      (starRingEnd ℂ) (((1 : ℝ) : ℂ) *
        Complex.exp (Complex.I * ((deg2rad Real.pi : ℝ) : ℂ)))).im =
      Real.cos (deg2rad Real.pi) := by
    rw [Complex.ofReal_one, one_mul, ← Complex.exp_conj, map_mul,
      Complex.conj_I, Complex.conj_ofReal]
    rw [one_div, Complex.inv_I, neg_neg]
    rw [neg_mul, Complex.exp_neg]
    rw [div_inv_eq_mul]
    rw [mul_comm Complex.I ((deg2rad Real.pi : ℝ) : ℂ), Complex.exp_mul_I]
    simp [Complex.mul_im, Complex.cos_ofReal_re, Complex.sin_ofReal_im]
  have hrad : ((-(1 / Complex.I)) /
      (starRingEnd ℂ) (((1 : ℝ) : ℂ) *
        Complex.exp (Complex.I * ((Real.pi : ℝ) : ℂ)))).im = -1 := by
    rw [mul_comm Complex.I ((Real.pi : ℝ) : ℂ), Complex.exp_pi_mul_I]
    simp [one_div, Complex.inv_I, div_neg, div_one]
  rw [hcode, hrad] at hYft
  have hpos : 0 < Real.cos (deg2rad Real.pi) := by
    apply Real.cos_pos_of_mem_Ioo
    unfold deg2rad
    constructor
    · have := Real.pi_pos
      nlinarith
    · have h1 : Real.pi < 3.15 := Real.pi_lt_d2
      have h2 := Real.pi_pos
      nlinarith [mul_pos (sub_pos.mpr h1) h2]
  linarith

theorem barraNomes_two :
    barraNomes [⟨1, "PQ", "A", 1, 0, [], [], []⟩,
                ⟨2, "PQ", "B", 1, 0, [], [], []⟩] = ["A", "B"] := by
  unfold barraNomes
  rw [show ([⟨1, "PQ", "A", 1, 0, [], [], []⟩,
      ⟨2, "PQ", "B", 1, 0, [], [], []⟩] : List Bus).map Bus.nome = ["A", "B"]
    from rfl]
  rw [show (["A", "B"] : List String).dedup = ["A", "B"] from by decide]
  simp only [List.insertionSort, List.orderedInsert]
  rw [if_pos (by rw [String.le_iff_toList_le]; decide)]

/-- Claim C1 is violated by the code (code bug): `Ybus.__new__` stamps
every line regardless of its `status`.  For the out-of-service line A-B
with r = 0, x = 1, b = 0, the built matrix has entry Y[A][B] = j, while
the matrix built from the in-service elements alone (the empty filter of
the line list) has Y[A][B] = 0. -/
theorem ybus_ignores_line_status :
    (⟨"A", "B", 0, 1, 0, 1, "", false⟩ : Line).status = false ∧
    (Ybus [⟨"A", "B", 0, 1, 0, 1, "", false⟩] []
        [⟨1, "PQ", "A", 1, 0, [], [], []⟩, ⟨2, "PQ", "B", 1, 0, [], [], []⟩]
        []).map (fun df => df.mat 0 1) = .ok Complex.I ∧
    (Ybus (List.filter (fun l => l.status) [⟨"A", "B", 0, 1, 0, 1, "", false⟩])
        [] [⟨1, "PQ", "A", 1, 0, [], [], []⟩, ⟨2, "PQ", "B", 1, 0, [], [], []⟩]
        []).map (fun df => df.mat 0 1) = .ok 0 ∧
    (Complex.I : ℂ) ≠ 0 := by
  have hA : barraMap ["A", "B"] "A" = some 0 := by decide
  have hB : barraMap ["A", "B"] "B" = some 1 := by decide
  refine ⟨rfl, ?_, ?_, Complex.I_ne_zero⟩
  · simp only [Ybus, barraNomes_two, stampLinhas, admitanciaLinha, hA, hB,
      stampTrafos, stampShunts, List.foldl, applyStamp, update2, Except.map]
    norm_num
    rw [show ((⟨0, 1⟩ : ℂ)) = Complex.I from rfl, Complex.inv_I, neg_neg]
  · rw [show List.filter (fun l => l.status)
      [(⟨"A", "B", 0, 1, 0, 1, "", false⟩ : Line)] = [] from rfl]
    simp only [Ybus, barraNomes_two, stampLinhas, stampTrafos, stampShunts,
      List.foldl, Except.map]

theorem applyStamp_ne (m : ℕ → ℕ → ℂ) (s : ℕ × ℕ × ℂ) (i j : ℕ)
    (h : ¬ (i = s.1 ∧ j = s.2.1)) : applyStamp m s i j = m i j := by
  unfold applyStamp update2
  exact if_neg h

theorem foldl_applyStamp_ne (stamps : List (ℕ × ℕ × ℂ)) (m : ℕ → ℕ → ℂ)
    (i j : ℕ) (h : ∀ s ∈ stamps, ¬ (i = s.1 ∧ j = s.2.1)) :
    stamps.foldl applyStamp m i j = m i j := by
  induction stamps generalizing m with
  | nil => rfl
  | cons s rest ih =>
      rw [List.foldl_cons, ih _ (fun q hq => h q (List.mem_cons_of_mem _ hq)),
        applyStamp_ne m s i j (h s (List.mem_cons_self _ _))]

theorem admitanciaLinha_ok_inv (l : Line) (bm : String → Option ℕ)
    (stamps : List (ℕ × ℕ × ℂ)) (h : admitanciaLinha l bm = .ok stamps) :
    ∃ a b y1 y2 y3 y4, bm l.de = some a ∧ bm l.para = some b ∧
      stamps = [(a, a, y1), (b, b, y2), (a, b, y3), (b, a, y4)] := by
  unfold admitanciaLinha at h
  cases hde : bm l.de <;> cases hpara : bm l.para <;> rw [hde, hpara] at h
  case none.none => exact absurd h (by simp)
  case none.some => exact absurd h (by simp)
  case some.none => exact absurd h (by simp)
  case some.some a b =>
      simp only [Except.ok.injEq] at h
      exact ⟨a, b, _, _, _, _, rfl, rfl, h.symm⟩

theorem admitanciaTransformador_ok_inv (t : Transformer)
    (bm : String → Option ℕ) (stamps : List (ℕ × ℕ × ℂ))
    (h : admitanciaTransformador t bm = .ok stamps) :
    ∃ a b y1 y2 y3 y4, bm t.de = some a ∧ bm t.para = some b ∧
      stamps = [(a, a, y1), (a, b, y2), (b, a, y3), (b, b, y4)] := by
  unfold admitanciaTransformador at h
  cases hde : bm t.de <;> cases hpara : bm t.para <;> rw [hde, hpara] at h
  case none.none => exact absurd h (by simp)
  case none.some => exact absurd h (by simp)
  case some.none => exact absurd h (by simp)
  case some.some a b =>
      simp only [Except.ok.injEq] at h
      exact ⟨a, b, _, _, _, _, rfl, rfl, h.symm⟩

theorem stampLinhas_preserve (bm : String → Option ℕ) (ls : List Line)
    (m m2 : ℕ → ℕ → ℂ) (i j : ℕ) (h : stampLinhas bm m ls = .ok m2)
    (hc : ∀ l ∈ ls, ∀ a b : ℕ, bm l.de = some a → bm l.para = some b →
      ¬ ((i, j) = (a, a) ∨ (i, j) = (b, b) ∨ (i, j) = (a, b) ∨ (i, j) = (b, a))) :
    m2 i j = m i j := by
  induction ls generalizing m with
  | nil =>
      rw [stampLinhas] at h
      simp only [Except.ok.injEq] at h
      rw [← h]
  | cons l rest ih =>
      rw [stampLinhas] at h
      cases hadm : admitanciaLinha l bm with
      | error e => rw [hadm] at h; exact absurd h (by simp)
      | ok stamps =>
          rw [hadm] at h
          obtain ⟨a, b, y1, y2, y3, y4, hde, hpara, hst⟩ :=
            admitanciaLinha_ok_inv l bm stamps hadm
          have hcl := hc l (List.mem_cons_self _ _) a b hde hpara
          rw [ih _ h (fun q hq => hc q (List.mem_cons_of_mem _ hq))]
          apply foldl_applyStamp_ne
          intro s hs
      -- the four stamp positions are exactly those excluded by hcl
          rw [hst] at hs
          simp only [List.mem_cons, List.not_mem_nil, or_false] at hs
          rcases hs with rfl | rfl | rfl | rfl
          · exact fun hij => hcl (Or.inl (by rw [hij.1, hij.2]))
          · exact fun hij => hcl (Or.inr (Or.inl (by rw [hij.1, hij.2])))
          · exact fun hij => hcl (Or.inr (Or.inr (Or.inl (by rw [hij.1, hij.2]))))
          · exact fun hij => hcl (Or.inr (Or.inr (Or.inr (by rw [hij.1, hij.2]))))

theorem stampTrafos_preserve (bm : String → Option ℕ) (ts : List Transformer)
    (m m2 : ℕ → ℕ → ℂ) (i j : ℕ) (h : stampTrafos bm m ts = .ok m2)
    (hc : ∀ t ∈ ts, ∀ a b : ℕ, bm t.de = some a → bm t.para = some b →
      ¬ ((i, j) = (a, a) ∨ (i, j) = (b, b) ∨ (i, j) = (a, b) ∨ (i, j) = (b, a))) :
    m2 i j = m i j := by
  induction ts generalizing m with
  | nil =>
      rw [stampTrafos] at h
      simp only [Except.ok.injEq] at h
      rw [← h]
  | cons t rest ih =>
      rw [stampTrafos] at h
      cases hadm : admitanciaTransformador t bm with
      | error e => rw [hadm] at h; exact absurd h (by simp)
      | ok stamps =>
          rw [hadm] at h
          obtain ⟨a, b, y1, y2, y3, y4, hde, hpara, hst⟩ :=
            admitanciaTransformador_ok_inv t bm stamps hadm
          have hcl := hc t (List.mem_cons_self _ _) a b hde hpara
          rw [ih _ h (fun q hq => hc q (List.mem_cons_of_mem _ hq))]
          apply foldl_applyStamp_ne
          intro s hs
          rw [hst] at hs
          simp only [List.mem_cons, List.not_mem_nil, or_false] at hs
          rcases hs with rfl | rfl | rfl | rfl
          · exact fun hij => hcl (Or.inl (by rw [hij.1, hij.2]))
          · exact fun hij => hcl (Or.inr (Or.inr (Or.inl (by rw [hij.1, hij.2]))))
          · exact fun hij => hcl (Or.inr (Or.inr (Or.inr (by rw [hij.1, hij.2]))))
          · exact fun hij => hcl (Or.inr (Or.inl (by rw [hij.1, hij.2])))

theorem stampShunts_preserve (bm : String → Option ℕ) (shunts : List Shunt)
    (m : ℕ → ℕ → ℂ) (i j : ℕ)
    (hc : ∀ s ∈ shunts, ∀ a : ℕ, s.status = true → bm s.barra = some a →
      ¬ (i, j) = (a, a)) :
    stampShunts bm m shunts i j = m i j := by
  induction shunts generalizing m with
  | nil => rfl
  | cons s rest ih =>
      have hstep : stampShunts bm m (s :: rest) =
          stampShunts bm
            (if s.status then
              match bm s.barra with
              | some a => applyStamp m (a, a, (⟨0, s.b⟩ : ℂ))
              | none => m
            else m) rest := rfl
      rw [hstep, ih _ (fun q hq => hc q (List.mem_cons_of_mem _ hq))]
      by_cases hstat : s.status
      · rw [if_pos hstat]
        cases hbm : bm s.barra with
        | none => rfl
        | some a =>
            apply applyStamp_ne
            intro hij
            exact hc s (List.mem_cons_self _ _) a hstat hbm
              (by rw [hij.1, hij.2])
      · rw [if_neg hstat]

/-- Claim C10: whenever `Ybus.__new__` returns a matrix, its row labels
and column labels coincide and are the ≤-sorted duplicate-free list of
exactly the distinct input bus names (independent of input order), and
every entry that receives no line, transformer or in-service shunt
contribution is exactly 0. -/
theorem ybus_sorted_labels_zero_default (linhas : List Line)
    (trafos : List Transformer) (barras : List Bus) (shunts : List Shunt)
    (df : YbusDF) (h : Ybus linhas trafos barras shunts = .ok df) :
    df.index = df.columns ∧
    List.Sorted (fun a b => a ≤ b) df.index ∧
    df.index.Nodup ∧
    (∀ n, n ∈ df.index ↔ ∃ b ∈ barras, b.nome = n) ∧
    ∀ i j : ℕ,
      (∀ l ∈ linhas, ∀ a b : ℕ,
        barraMap df.index l.de = some a → barraMap df.index l.para = some b →
        ¬ ((i, j) = (a, a) ∨ (i, j) = (b, b) ∨ (i, j) = (a, b) ∨
           (i, j) = (b, a))) →
      (∀ t ∈ trafos, ∀ a b : ℕ,
        barraMap df.index t.de = some a → barraMap df.index t.para = some b →
        ¬ ((i, j) = (a, a) ∨ (i, j) = (b, b) ∨ (i, j) = (a, b) ∨
           (i, j) = (b, a))) →
      (∀ s ∈ shunts, ∀ a : ℕ, s.status = true →
        barraMap df.index s.barra = some a → ¬ (i, j) = (a, a)) →
      df.mat i j = 0 := by
  unfold Ybus at h
  cases h1 : stampLinhas (barraMap (barraNomes barras)) (fun _ _ => 0) linhas with
  | error e => simp only [h1] at h; exact absurd h (by simp)
  | ok m1 =>
      simp only [h1] at h
      cases h2 : stampTrafos (barraMap (barraNomes barras)) m1 trafos with
      | error e => simp only [h2] at h; exact absurd h (by simp)
      | ok m2 =>
          simp only [h2, Except.ok.injEq] at h
          subst h
          dsimp only
          unfold barraNomes
          refine ⟨rfl, ?_, ?_, ?_, ?_⟩
          · exact List.sorted_insertionSort (fun a b => a ≤ b) _
          · exact (List.perm_insertionSort (fun a b => a ≤ b) _).nodup_iff.mpr
              (List.nodup_dedup _)
          · intro n
            rw [(List.perm_insertionSort (fun a b => a ≤ b) _).mem_iff,
              List.mem_dedup]
            constructor
            · intro hn
              obtain ⟨b, hb, hbn⟩ := List.mem_map.mp hn
              exact ⟨b, hb, hbn⟩
            · rintro ⟨b, hb, hbn⟩
              exact List.mem_map.mpr ⟨b, hb, hbn⟩
          · intro i j hcl hct hcs
            rw [stampShunts_preserve _ _ _ _ _ hcs,
              stampTrafos_preserve _ _ _ _ _ _ h2 hct,
              stampLinhas_preserve _ _ _ _ _ _ h1 hcl]

/-- Witness for C10: a single bus named A with no elements; the labels are
the sorted singleton and the whole matrix is 0. -/
theorem ybus_sorted_labels_zero_default_witness :
    (["A"] : List String).Nodup ∧
    (Ybus [] [] [⟨1, "PQ", "A", 1, 0, [], [], []⟩] []).map
      (fun df => df.index) = .ok ["A"] ∧
    (Ybus [] [] [⟨1, "PQ", "A", 1, 0, [], [], []⟩] []).map
      (fun df => df.mat 0 0) = .ok 0 := by
  have h : Ybus [] [] [⟨1, "PQ", "A", 1, 0, [], [], []⟩] [] =
      .ok ⟨["A"], ["A"], fun _ _ => 0⟩ := rfl
  have hzero := (ybus_sorted_labels_zero_default [] [] _ [] _ h).2.2.2.2 0 0
    (by intro l hl; cases hl) (by intro t ht2; cases ht2)
    (by intro s hs; cases hs)
  refine ⟨by decide, ?_, ?_⟩
  · rw [h]
    rfl
  · rw [h]
    exact congrArg Except.ok hzero

/-- Claim C8 amended: `calc_injected_power` aborts exactly when a bus of
V's index is absent from the admittance-matrix labels (KeyError during
the `G.loc[ordem, ordem]` realignment) or θ's label list differs from
V's (the assert); when G/B merely carry the same names in a different
order they are silently realigned by bus name and the same P, Q are
returned as with any other ordering of the matrix labels. -/
theorem calcInjectedPower_abort_characterization (yOrder : List String)
    (ybus : String → String → ℂ) (vOrder : List String) (V : String → ℝ)
    (thetaOrder : List String) (theta : String → ℝ) :
    ((∃ out, calcInjectedPower yOrder ybus vOrder V thetaOrder theta = .ok out)
      ↔ ((∀ n ∈ vOrder, n ∈ yOrder) ∧ thetaOrder = vOrder)) ∧
    (∀ yOrder2, (∀ n ∈ vOrder, n ∈ yOrder) → (∀ n ∈ vOrder, n ∈ yOrder2) →
      calcInjectedPower yOrder ybus vOrder V thetaOrder theta =
        calcInjectedPower yOrder2 ybus vOrder V thetaOrder theta) := by
  refine ⟨⟨?_, ?_⟩, ?_⟩
  · rintro ⟨out, hout⟩
    unfold calcInjectedPower at hout
    by_cases h1 : ∀ n ∈ vOrder, n ∈ yOrder
    · rw [if_pos h1] at hout
      by_cases h2 : thetaOrder = vOrder
      · exact ⟨h1, h2⟩
      · rw [if_neg h2] at hout
        exact absurd hout (by simp)
    · rw [if_neg h1] at hout
      exact absurd hout (by simp)
  · rintro ⟨h1, h2⟩
    refine ⟨(vOrder.map (fun k => (k, pSum ybus V theta vOrder k)),
      vOrder.map (fun k => (k, qSum ybus V theta vOrder k))), ?_⟩
    unfold calcInjectedPower
    rw [if_pos h1, if_pos h2]
  · intro yOrder2 h1 h2
    unfold calcInjectedPower
    rw [if_pos h1, if_pos h2]

/-- Witness for C8's amended order-irrelevance conjunct at concrete
inputs: the matrix labels ["B", "A"] versus ["A", "B"] give the same
result. -/
theorem calcInjectedPower_abort_characterization_witness :
    calcInjectedPower ["B", "A"] (fun _ _ => 0) ["A", "B"] (fun _ => 1)
      ["A", "B"] (fun _ => 0) =
    calcInjectedPower ["A", "B"] (fun _ _ => 0) ["A", "B"] (fun _ => 1)
      ["A", "B"] (fun _ => 0) :=
  (calcInjectedPower_abort_characterization ["B", "A"] (fun _ _ => 0)
    ["A", "B"] (fun _ => 1) ["A", "B"] (fun _ => 0)).2 ["A", "B"]
    (by decide) (by decide)

/-- Counterexample to C8 as stated: a call in which the matrix labels
["B", "A"] do not share V/θ's ordering ["A", "B"] does NOT abort — the
code realigns G and B by bus name and returns P, Q. -/
theorem calcInjectedPower_reorder_not_fatal :
    (["B", "A"] : List String) ≠ ["A", "B"] ∧
    ∃ out, calcInjectedPower ["B", "A"] (fun _ _ => 0) ["A", "B"]
      (fun _ => 1) ["A", "B"] (fun _ => 0) = .ok out := by
  refine ⟨by decide, ⟨(["A", "B"].map (fun k =>
      (k, pSum (fun _ _ => 0) (fun _ => 1) (fun _ => 0) ["A", "B"] k)),
    ["A", "B"].map (fun k =>
      (k, qSum (fun _ _ => 0) (fun _ => 1) (fun _ => 0) ["A", "B"] k))), ?_⟩⟩
  unfold calcInjectedPower
  rw [if_pos (by decide), if_pos rfl]

end PowerFlow
